import Mathlib

/-!
Shallow embedding of the `astor` core: the tamper-evident ledger
(`src/ledger.rs`) and the pBFT consensus engine
(`src/network/consensus.rs`).

Modelling conventions:
* `u64` values are `Nat`s; every arithmetic step the source performs with
  `checked_add` is modelled by `checkedAdd`, which fails exactly when the
  mathematical sum leaves the `u64` range.
* `hash_data` (SHA-256, hex encoded) is an abstract parameter
  `hd : String → String`: every theorem below is proved for an arbitrary
  such function, hence in particular for SHA-256.
* `uuid::Uuid::new_v4()` and `Utc::now()` are nondeterministic inputs of
  `add_entry`; they are passed in explicitly as strings.
* `HashMap<String, u64>` with `entry(k).or_insert(0)` and
  `get(k).copied().unwrap_or(0)` is observationally a total function
  `String → Nat` defaulting to `0`; it is modelled as such.
* `&mut self` methods returning `Result` are modelled as functions
  returning the outcome together with the state after the call (on error
  the mutations already performed persist, exactly as in Rust).
-/

namespace Astor

/-- The `u64` range bound: `2 ^ 64`. -/
def u64Limit : Nat := 2 ^ 64

/-- Rust `u64::checked_add`. -/
def checkedAdd (a b : Nat) : Option Nat :=
  if a + b < u64Limit then some (a + b) else none

/-- The variants of `AstorError` (`src/errors.rs`) reachable from the
ledger code; only `LedgerError(String)` is constructed there. -/
inductive AstorError where
  | LedgerError (msg : String)
  deriving Repr, DecidableEq

/-- `LedgerEntryType` from `src/ledger.rs`. -/
inductive LedgerEntryType where
  | Issuance (transaction_id issuer recipient : String) (amount : Nat)
  | Transfer (transaction_id from_acct to_acct : String) (amount : Nat)
  | AccountCreation (account_id : String)
  | AdminAction (admin_id act target : String)
  deriving Repr, DecidableEq

/-- Rust `{:?}` (derived `Debug`) rendering of `LedgerEntryType`, used by
`add_entry` and `verify_integrity` to build the hashed entry data. -/
def debugRepr : LedgerEntryType → String
  | .Issuance tid issuer recipient amount =>
      "Issuance \x7b transaction_id: \"" ++ tid ++ "\", issuer: \"" ++ issuer ++
        "\", recipient: \"" ++ recipient ++ "\", amount: " ++ toString amount ++ " \x7d"
  | .Transfer tid f t amount =>
      "Transfer \x7b transaction_id: \"" ++ tid ++ "\", from: \"" ++ f ++
        "\", to: \"" ++ t ++ "\", amount: " ++ toString amount ++ " \x7d"
  | .AccountCreation account_id =>
      "AccountCreation \x7b account_id: \"" ++ account_id ++ "\" \x7d"
  | .AdminAction admin_id act target =>
      "AdminAction \x7b admin_id: \"" ++ admin_id ++ "\", action: \"" ++ act ++
        "\", target: \"" ++ target ++ "\" \x7d"

/-- `LedgerEntry` from `src/ledger.rs`. -/
structure LedgerEntry where
  id : String
  entry_type : LedgerEntryType
  timestamp : String
  hash : String
  previous_hash : String
  deriving Repr, DecidableEq

/-- `Ledger` from `src/ledger.rs`; `account_balances` is the total-function
view of the `HashMap` (absent keys read as `0`). -/
structure Ledger where
  entries : List LedgerEntry
  account_balances : String → Nat
  total_supply : Nat

/-- `Ledger::new`. -/
def Ledger.new : Ledger :=
  { entries := [], account_balances := fun _ => 0, total_supply := 0 }

/-- Pointwise map update, the observable effect of writing through
`entry(k).or_insert(0)`. -/
def updateBal (f : String → Nat) (k : String) (v : Nat) : String → Nat :=
  fun x => if x = k then v else f x

/-- Hash of the last entry of a list, with `anchor` for the empty list. -/
def lastHashD (anchor : String) (es : List LedgerEntry) : String :=
  match es.getLast? with
  | some e => e.hash
  | none => anchor

/-- `Ledger::get_last_hash`. -/
def Ledger.get_last_hash (l : Ledger) : String :=
  lastHashD "genesis" l.entries

/-- The entry `Ledger::add_entry` constructs: `entry_data` is
`format!("\x7b\x7d\x7b:?\x7d\x7b\x7d", entry_id, entry_type, timestamp)` and the stored hash
is `hash_data(previous_hash ++ entry_data)`. -/
def mkEntry (hd : String → String) (previous_hash entry_id timestamp : String)
    (entry_type : LedgerEntryType) : LedgerEntry :=
  { id := entry_id
    entry_type := entry_type
    timestamp := timestamp
    hash := hd (previous_hash ++ (entry_id ++ debugRepr entry_type ++ timestamp))
    previous_hash := previous_hash }

/-- `Ledger::add_entry` (it always succeeds: the `Result` it returns is
always `Ok(())`). -/
def Ledger.add_entry (hd : String → String) (l : Ledger)
    (entry_id timestamp : String) (entry_type : LedgerEntryType) : Ledger :=
  { l with entries := l.entries ++ [mkEntry hd l.get_last_hash entry_id timestamp entry_type] }

/-- `Ledger::record_issuance`. Note the source order: the entry is pushed
by `add_entry` first, and only then are `total_supply` and the recipient
balance updated with `checked_add`. -/
def Ledger.record_issuance (hd : String → String) (l : Ledger)
    (entry_id timestamp : String) (transaction_id issuer recipient : String)
    (amount : Nat) : Except AstorError Unit × Ledger :=
  let l1 := l.add_entry hd entry_id timestamp
    (.Issuance transaction_id issuer recipient amount)
  match checkedAdd l1.total_supply amount with
  | none => (.error (.LedgerError "Total supply overflow"), l1)
  | some s =>
    let l2 := { l1 with total_supply := s }
    match checkedAdd (l2.account_balances recipient) amount with
    | none => (.error (.LedgerError "Account balance overflow"), l2)
    | some b =>
      (.ok (), { l2 with account_balances := updateBal l2.account_balances recipient b })

/-- `Ledger::record_transfer`. Note the source order: the entry is pushed
by `add_entry` first, and only then is the `from` balance checked. -/
def Ledger.record_transfer (hd : String → String) (l : Ledger)
    (entry_id timestamp : String) (transaction_id from_acct to_acct : String)
    (amount : Nat) : Except AstorError Unit × Ledger :=
  let l1 := l.add_entry hd entry_id timestamp
    (.Transfer transaction_id from_acct to_acct amount)
  let from_balance := l1.account_balances from_acct
  if from_balance < amount then
    (.error (.LedgerError "Insufficient balance in ledger"), l1)
  else
    let l2 := { l1 with
      account_balances := updateBal l1.account_balances from_acct (from_balance - amount) }
    match checkedAdd (l2.account_balances to_acct) amount with
    | none => (.error (.LedgerError "Account balance overflow"), l2)
    | some b =>
      (.ok (), { l2 with account_balances := updateBal l2.account_balances to_acct b })

/-- `Ledger::record_account_creation`. -/
def Ledger.record_account_creation (hd : String → String) (l : Ledger)
    (entry_id timestamp : String) (account_id : String) :
    Except AstorError Unit × Ledger :=
  (.ok (), l.add_entry hd entry_id timestamp (.AccountCreation account_id))

/-- `Ledger::record_admin_action`. -/
def Ledger.record_admin_action (hd : String → String) (l : Ledger)
    (entry_id timestamp : String) (admin_id act target : String) :
    Except AstorError Unit × Ledger :=
  (.ok (), l.add_entry hd entry_id timestamp (.AdminAction admin_id act target))

/-- `Ledger::get_total_supply`. -/
def Ledger.get_total_supply (l : Ledger) : Nat := l.total_supply

/-- `Ledger::get_account_balance`. -/
def Ledger.get_account_balance (l : Ledger) (account_id : String) : Nat :=
  l.account_balances account_id

/-- The check `Ledger::verify_integrity` performs at loop index `i`
(out-of-range indices pass vacuously; the source never reaches them). -/
def entryCheckB (hd : String → String) (es : List LedgerEntry) (i : Nat) : Bool :=
  match es.get? i with
  | none => true
  | some e =>
    let expected_previous_hash :=
      if i = 0 then "genesis"
      else
        match es.get? (i - 1) with
        | some p => p.hash
        | none => "genesis"
    (e.previous_hash == expected_previous_hash) &&
      (e.hash == hd (e.previous_hash ++ (e.id ++ debugRepr e.entry_type ++ e.timestamp)))

/-- `Ledger::verify_integrity` (the `for` loop with early `return Ok(false)`
is the conjunction of the per-index checks). -/
def Ledger.verify_integrity (hd : String → String) (l : Ledger) : Bool :=
  if l.entries.isEmpty then true
  else (List.range l.entries.length).all (entryCheckB hd l.entries)

/-- One call to a `Ledger::record_*` method, with the nondeterministic
entry id and timestamp made explicit. -/
inductive LedgerOp where
  | issuance (entry_id timestamp transaction_id issuer recipient : String) (amount : Nat)
  | transfer (entry_id timestamp transaction_id from_acct to_acct : String) (amount : Nat)
  | accountCreation (entry_id timestamp account_id : String)
  | adminAction (entry_id timestamp admin_id act target : String)
  deriving Repr, DecidableEq

/-- Dispatch one recorded operation to the corresponding ledger method. -/
def applyOp (hd : String → String) (l : Ledger) : LedgerOp → Except AstorError Unit × Ledger
  | .issuance eid ts tid issuer recipient amount =>
      l.record_issuance hd eid ts tid issuer recipient amount
  | .transfer eid ts tid f t amount => l.record_transfer hd eid ts tid f t amount
  | .accountCreation eid ts aid => l.record_account_creation hd eid ts aid
  | .adminAction eid ts aid act target => l.record_admin_action hd eid ts aid act target

/-- Run a sequence of record operations, keeping the state after each call
whether it succeeded or failed (as the Rust `&mut self` methods do). -/
def runOps (hd : String → String) (l : Ledger) (ops : List LedgerOp) : Ledger :=
  ops.foldl (fun st op => (applyOp hd st op).2) l

/-- A concrete stand-in usable wherever a specific hash function is needed
to evaluate the model on concrete inputs (the theorems themselves hold for
every hash function). -/
def hashFn : String → String := fun s => "h:" ++ s

/-! Structural facts about `add_entry` and the record operations. -/

/-- Every record operation appends exactly one entry, built by `mkEntry`
from the current chain tail, no matter whether the operation succeeds. -/
lemma applyOp_entries (hd : String → String) (l : Ledger) (op : LedgerOp) :
    ∃ e : LedgerEntry,
      ((applyOp hd l op).2).entries = l.entries ++ [e] ∧
      e.previous_hash = l.get_last_hash ∧
      e.hash = hd (e.previous_hash ++ (e.id ++ debugRepr e.entry_type ++ e.timestamp)) := by
  cases op with
  | issuance eid ts tid issuer recipient amount =>
    refine ⟨mkEntry hd l.get_last_hash eid ts (.Issuance tid issuer recipient amount), ?_, rfl, rfl⟩
    simp only [applyOp, Ledger.record_issuance, Ledger.add_entry]
    split
    · rfl
    · split <;> rfl
  | transfer eid ts tid f t amount =>
    refine ⟨mkEntry hd l.get_last_hash eid ts (.Transfer tid f t amount), ?_, rfl, rfl⟩
    simp only [applyOp, Ledger.record_transfer, Ledger.add_entry]
    split
    · rfl
    · split <;> rfl
  | accountCreation eid ts aid => exact ⟨_, rfl, rfl, rfl⟩
  | adminAction eid ts aid act target => exact ⟨_, rfl, rfl, rfl⟩

/-- Hash-chain predicate: each entry's `previous_hash` is the hash of its
predecessor, anchored at `prev` for the head. -/
def chainFrom (prev : String) : List LedgerEntry → Prop
  | [] => True
  | e :: rest => e.previous_hash = prev ∧ chainFrom e.hash rest

lemma lastHashD_cons (prev : String) (e : LedgerEntry) (t : List LedgerEntry) :
    lastHashD prev (e :: t) = lastHashD e.hash t := by
  cases t with
  | nil => simp [lastHashD]
  | cons b t' =>
    simp only [lastHashD, List.getLast?_cons_cons]
    cases h : (b :: t').getLast? with
    | none => exact absurd h (by simp)
    | some x => rfl

lemma chainFrom_append (prev : String) (es : List LedgerEntry) (e : LedgerEntry) :
    chainFrom prev (es ++ [e]) ↔
      chainFrom prev es ∧ e.previous_hash = lastHashD prev es := by
  induction es generalizing prev with
  | nil => simp [chainFrom, lastHashD]
  | cons a t ih =>
    simp only [List.cons_append, chainFrom, List.append_eq, ih a.hash, lastHashD_cons]
    tauto

/-- Every entry of `es` stores the digest `hash_data` computes for it. -/
def entriesHashed (hd : String → String) (es : List LedgerEntry) : Prop :=
  ∀ e ∈ es, e.hash = hd (e.previous_hash ++ (e.id ++ debugRepr e.entry_type ++ e.timestamp))

lemma runOps_chainFrom (hd : String → String) (ops : List LedgerOp) (l : Ledger)
    (h : chainFrom "genesis" l.entries) :
    chainFrom "genesis" (runOps hd l ops).entries := by
  induction ops generalizing l with
  | nil => exact h
  | cons op rest ih =>
    obtain ⟨e, he, hp, _⟩ := applyOp_entries hd l op
    have : runOps hd l (op :: rest) = runOps hd (applyOp hd l op).2 rest := rfl
    rw [this]
    exact ih _ (by rw [he, chainFrom_append]; exact ⟨h, hp⟩)

lemma runOps_hashed (hd : String → String) (ops : List LedgerOp) (l : Ledger)
    (h : entriesHashed hd l.entries) :
    entriesHashed hd (runOps hd l ops).entries := by
  induction ops generalizing l with
  | nil => exact h
  | cons op rest ih =>
    obtain ⟨e, he, _, hh⟩ := applyOp_entries hd l op
    have hstep : runOps hd l (op :: rest) = runOps hd (applyOp hd l op).2 rest := rfl
    rw [hstep]
    refine ih _ ?_
    rw [he]
    intro x hx
    rcases List.mem_append.mp hx with hx | hx
    · exact h x hx
    · rw [List.mem_singleton.mp hx]; exact hh

/-- Index-wise reading of `chainFrom`. -/
lemma chainFrom_get (prev : String) (es : List LedgerEntry) (h : chainFrom prev es) :
    ∀ i (hi : i < es.length),
      (es.get ⟨i, hi⟩).previous_hash =
        if _h0 : i = 0 then prev else (es.get ⟨i - 1, by omega⟩).hash := by
  induction es generalizing prev with
  | nil => intro i hi; simp at hi
  | cons a t ih =>
    intro i hi
    match i with
    | 0 => simpa using h.1
    | 1 =>
      have := ih a.hash h.2 0 (by simp only [List.length_cons] at hi; omega)
      simpa using this
    | (j+2) =>
      have := ih a.hash h.2 (j+1) (by simp only [List.length_cons] at hi; omega)
      simpa using this

/-- The property the spec ascribes to `verify_integrity` at index `i`:
the entry's `previous_hash` is `"genesis"` for index 0 and the previous
entry's `hash` otherwise, and its `hash` is the recomputed digest. -/
abbrev entryValidAt (hd : String → String) (es : List LedgerEntry) (i : Nat)
    (hi : i < es.length) : Prop :=
  (es.get ⟨i, hi⟩).previous_hash =
      (if _h0 : i = 0 then "genesis" else (es.get ⟨i - 1, by omega⟩).hash)
  ∧ (es.get ⟨i, hi⟩).hash =
      hd ((es.get ⟨i, hi⟩).previous_hash ++
        ((es.get ⟨i, hi⟩).id ++ debugRepr (es.get ⟨i, hi⟩).entry_type ++
          (es.get ⟨i, hi⟩).timestamp))

lemma entryCheckB_iff (hd : String → String) (es : List LedgerEntry) (i : Nat)
    (hi : i < es.length) :
    entryCheckB hd es i = true ↔ entryValidAt hd es i hi := by
  unfold entryCheckB entryValidAt
  rw [List.get?_eq_get hi]
  by_cases h0 : i = 0
  · subst h0
    simp
  · have hi1 : i - 1 < es.length := by omega
    rw [List.get?_eq_get hi1]
    simp [h0]

lemma verify_true_iff (hd : String → String) (l : Ledger) :
    l.verify_integrity hd = true ↔
      ∀ i (hi : i < l.entries.length), entryValidAt hd l.entries i hi := by
  unfold Ledger.verify_integrity
  split
  case isTrue hemp =>
    have hlen : l.entries.length = 0 := by
      simpa [List.isEmpty_iff_length_eq_zero] using hemp
    constructor
    · intro _ i hi
      omega
    · intro _
      rfl
  case isFalse =>
    rw [List.all_eq_true]
    constructor
    · intro h i hi
      exact (entryCheckB_iff hd _ i hi).mp (h i (List.mem_range.mpr hi))
    · intro h i himem
      have hi := List.mem_range.mp himem
      exact (entryCheckB_iff hd _ i hi).mpr (h i hi)

lemma entryValidAt_of_chain_hashed (hd : String → String) (es : List LedgerEntry)
    (hc : chainFrom "genesis" es) (hh : entriesHashed hd es)
    (i : Nat) (hi : i < es.length) : entryValidAt hd es i hi :=
  ⟨chainFrom_get "genesis" es hc i hi, hh _ (es.get_mem _ _)⟩

/-- Any ledger produced by running record operations from `Ledger::new`
passes `verify_integrity`. -/
lemma runOps_verify (hd : String → String) (ops : List LedgerOp) :
    (runOps hd Ledger.new ops).verify_integrity hd = true := by
  rw [verify_true_iff]
  intro i hi
  exact entryValidAt_of_chain_hashed hd _
    (runOps_chainFrom hd ops Ledger.new trivial)
    (runOps_hashed hd ops Ledger.new (by intro e he; simp [Ledger.new] at he))
    i hi

/-- C3: After any sequence of `record_issuance`, `record_transfer`,
`record_account_creation`, and `record_admin_action` operations starting
from a new ledger, the entry list forms a hash chain: for every index
`i > 0`, `entries[i].previous_hash` equals `entries[i-1].hash`, and if the
list is non-empty, `entries[0].previous_hash` equals the literal string
`"genesis"`. -/
theorem hash_chain_after_runOps (hd : String → String) (ops : List LedgerOp) :
    (∀ i (hi : i + 1 < (runOps hd Ledger.new ops).entries.length),
        ((runOps hd Ledger.new ops).entries.get ⟨i + 1, hi⟩).previous_hash =
          ((runOps hd Ledger.new ops).entries.get ⟨i, by omega⟩).hash) ∧
    (∀ h0 : 0 < (runOps hd Ledger.new ops).entries.length,
        ((runOps hd Ledger.new ops).entries.get ⟨0, h0⟩).previous_hash = "genesis") := by
  have hc := runOps_chainFrom hd ops Ledger.new trivial
  constructor
  · intro i hi
    have := chainFrom_get "genesis" _ hc (i + 1) hi
    simpa using this
  · intro h0
    have := chainFrom_get "genesis" _ hc 0 h0
    simpa using this

/-- Two admin-action recordings: a concrete run used to instantiate the
hash-chain theorem. -/
def opsW : List LedgerOp :=
  [.accountCreation "e1" "t1" "acct1", .accountCreation "e2" "t2" "acct2"]

lemma opsW_len1 : 1 < (runOps hashFn Ledger.new opsW).entries.length := by decide

lemma opsW_len0 : 0 < (runOps hashFn Ledger.new opsW).entries.length := by decide

/-- Witness for C3: on a concrete two-entry run, entry 1's `previous_hash`
is entry 0's `hash`, and entry 0's `previous_hash` is `"genesis"`. -/
theorem hash_chain_after_runOps_witness :
    (((runOps hashFn Ledger.new opsW).entries.get ⟨1, opsW_len1⟩).previous_hash =
      ((runOps hashFn Ledger.new opsW).entries.get ⟨0, opsW_len0⟩).hash)
    ∧ ((runOps hashFn Ledger.new opsW).entries.get ⟨0, opsW_len0⟩).previous_hash
        = "genesis" :=
  ⟨(hash_chain_after_runOps hashFn opsW).1 0 opsW_len1,
   (hash_chain_after_runOps hashFn opsW).2 opsW_len0⟩

/-- C4: `verify_integrity` walks the entry list from the first entry,
recomputing each entry's expected `previous_hash` (`"genesis"` for index 0,
otherwise the previous entry's hash) and its expected hash digest, and
returns false exactly when some entry fails one of these checks; on an
empty ledger it returns true. -/
theorem verify_integrity_characterization (hd : String → String) (l : Ledger) :
    (l.verify_integrity hd = false ↔
       ∃ i, ∃ hi : i < l.entries.length, ¬ entryValidAt hd l.entries i hi)
    ∧ (l.entries = [] → l.verify_integrity hd = true) := by
  constructor
  · rw [show (l.verify_integrity hd = false) = ¬ (l.verify_integrity hd = true) by
      simp, verify_true_iff]
    simp only [not_forall]
  · intro h
    rw [verify_true_iff]
    intro i hi
    rw [h] at hi
    simp at hi

/-- A hand-built two-entry ledger whose second entry has a corrupted
`previous_hash`. -/
def corruptL : Ledger :=
  { entries :=
      [ { id := "a", entry_type := .AccountCreation "x", timestamp := "t1",
          hash := hashFn ("genesis" ++ ("a" ++ debugRepr (.AccountCreation "x") ++ "t1")),
          previous_hash := "genesis" },
        { id := "b", entry_type := .AccountCreation "y", timestamp := "t2",
          hash := "deadbeef", previous_hash := "bad" } ],
    account_balances := fun _ => 0,
    total_supply := 0 }

/-- Witness for C4: the characterization applied at the corrupted ledger
yields `verify_integrity = false`. -/
theorem verify_integrity_characterization_witness :
    corruptL.verify_integrity hashFn = false :=
  (verify_integrity_characterization hashFn corruptL).1.mpr
    ⟨1, by decide, by decide⟩

/-- C1 (refuting evaluation): on a fresh ledger, a transfer of 5 from the
empty account `"A"` is refused with the insufficient-balance error, yet the
rejected transfer HAS been appended to the entry list (the source calls
`add_entry` before checking the balance). -/
theorem record_transfer_insufficient_appends (hd : String → String) :
    (Ledger.new.record_transfer hd "e1" "t1" "x1" "A" "B" 5).1 =
        .error (.LedgerError "Insufficient balance in ledger")
    ∧ ((Ledger.new.record_transfer hd "e1" "t1" "x1" "A" "B" 5).2).entries.map
        LedgerEntry.entry_type = [.Transfer "x1" "A" "B" 5]
    ∧ ((Ledger.new.record_transfer hd "e1" "t1" "x1" "A" "B" 5).2).entries.length = 1 :=
  ⟨rfl, rfl, rfl⟩

deriving instance DecidableEq for Except

/-- Ledger holding the maximal representable supply, issued in one step
(evaluated with the concrete `hashFn`; the hashes play no role in the
balance bookkeeping). -/
def ledgerMaxSupply : Ledger :=
  (Ledger.new.record_issuance hashFn "e1" "t1" "x1" "root" "A" (u64Limit - 1)).2

/-- C2 (refuting evaluation): issuing 1 more on top of the maximal supply
fails with the overflow error and leaves `total_supply` and every balance
unchanged, but the rejected `Issuance` entry HAS been appended (the source
calls `add_entry` before the checked additions). -/
theorem record_issuance_overflow_appends :
    (ledgerMaxSupply.record_issuance hashFn "e2" "t2" "x2" "root" "A" 1).1 =
        .error (.LedgerError "Total supply overflow")
    ∧ (ledgerMaxSupply.record_issuance hashFn "e2" "t2" "x2" "root" "A" 1).2.entries.length =
        ledgerMaxSupply.entries.length + 1
    ∧ (ledgerMaxSupply.record_issuance hashFn "e2" "t2" "x2" "root" "A" 1).2.get_total_supply =
        ledgerMaxSupply.get_total_supply
    ∧ ∀ acct, (ledgerMaxSupply.record_issuance hashFn "e2" "t2" "x2" "root" "A" 1).2.get_account_balance acct =
        ledgerMaxSupply.get_account_balance acct :=
  ⟨by decide, by decide, by decide, fun _ => rfl⟩

/-- Sum of the `amount` fields of all `Issuance` entries in a list. -/
def issuanceTotal : List LedgerEntry → Nat
  | [] => 0
  | e :: rest =>
    (match e.entry_type with
     | .Issuance _ _ _ amount => amount
     | _ => 0) + issuanceTotal rest

/-- Operation sequence whose second issuance overflows `total_supply`. -/
def opsOverflow : List LedgerOp :=
  [.issuance "e1" "t1" "x1" "root" "A" (u64Limit - 1),
   .issuance "e2" "t2" "x2" "root" "A" 1]

/-- C6 (refuting evaluation): after a successful issuance of
`2^64 - 1` and a failed issuance of 1 (supply overflow), `get_total_supply`
is `2^64 - 1` while the `Issuance` entries in the list sum to `2^64` — the
supply invariant does not survive a failed `record_issuance`. -/
theorem total_supply_ne_issuance_sum :
    (runOps hashFn Ledger.new opsOverflow).get_total_supply ≠
      issuanceTotal (runOps hashFn Ledger.new opsOverflow).entries := by
  decide

set_option maxRecDepth 4000 in
/-- C7: starting from a new ledger, an `Issuance` of 1000 to `"A"`
followed by a `Transfer` of 300 from `"A"` to `"B"` leaves
`get_account_balance "A" = 700`, `get_account_balance "B" = 300`,
`get_total_supply = 1000`, and `verify_integrity` returning true — for any
entry ids, timestamps, transaction ids, and hash function. -/
theorem issuance_then_transfer_scenario (hd : String → String)
    (eid1 ts1 tid1 eid2 ts2 tid2 : String) :
    ((((Ledger.new.record_issuance hd eid1 ts1 tid1 "root" "A" 1000).2).record_transfer
        hd eid2 ts2 tid2 "A" "B" 300).2).get_account_balance "A" = 700
    ∧ ((((Ledger.new.record_issuance hd eid1 ts1 tid1 "root" "A" 1000).2).record_transfer
        hd eid2 ts2 tid2 "A" "B" 300).2).get_account_balance "B" = 300
    ∧ ((((Ledger.new.record_issuance hd eid1 ts1 tid1 "root" "A" 1000).2).record_transfer
        hd eid2 ts2 tid2 "A" "B" 300).2).get_total_supply = 1000
    ∧ ((((Ledger.new.record_issuance hd eid1 ts1 tid1 "root" "A" 1000).2).record_transfer
        hd eid2 ts2 tid2 "A" "B" 300).2).verify_integrity hd = true := by
  refine ⟨rfl, rfl, rfl, ?_⟩
  have : (((Ledger.new.record_issuance hd eid1 ts1 tid1 "root" "A" 1000).2).record_transfer
        hd eid2 ts2 tid2 "A" "B" 300).2 =
      runOps hd Ledger.new
        [.issuance eid1 ts1 tid1 "root" "A" 1000, .transfer eid2 ts2 tid2 "A" "B" 300] := rfl
  rw [this]
  exact runOps_verify hd _

/-- Does this record operation name `x` as the credited side (recipient of
an `Issuance`, `to` of a `Transfer`)? -/
def creditsAccount (op : LedgerOp) (x : String) : Bool :=
  match op with
  | .issuance _ _ _ _ recipient _ => recipient == x
  | .transfer _ _ _ _ to_acct _ => to_acct == x
  | .accountCreation _ _ _ => false
  | .adminAction _ _ _ _ _ => false

lemma applyOp_balance_zero (hd : String → String) (l : Ledger) (op : LedgerOp) (x : String)
    (hop : creditsAccount op x = false) (hb : l.account_balances x = 0) :
    ((applyOp hd l op).2).account_balances x = 0 := by
  cases op with
  | issuance eid ts tid issuer recipient amount =>
    have hne : x ≠ recipient := by
      simp only [creditsAccount, beq_eq_false_iff_ne, ne_eq] at hop
      exact fun h => hop h.symm
    simp only [applyOp, Ledger.record_issuance, Ledger.add_entry]
    split
    · exact hb
    · split
      · exact hb
      · simp [updateBal, hne, hb]
  | transfer eid ts tid f t amount =>
    have hne : x ≠ t := by
      simp only [creditsAccount, beq_eq_false_iff_ne, ne_eq] at hop
      exact fun h => hop h.symm
    simp only [applyOp, Ledger.record_transfer, Ledger.add_entry]
    have hx2 : updateBal l.account_balances f (l.account_balances f - amount) x = 0 := by
      by_cases hxf : x = f
      · subst hxf
        simp [updateBal, hb]
      · simp [updateBal, hxf, hb]
    split
    · exact hb
    · split
      · exact hx2
      · simpa [updateBal, hne] using hx2
  | accountCreation eid ts aid => exact hb
  | adminAction eid ts aid act target => exact hb

lemma runOps_balance_zero (hd : String → String) (x : String) :
    ∀ (ops : List LedgerOp) (l : Ledger),
      (∀ op ∈ ops, creditsAccount op x = false) →
      l.account_balances x = 0 →
      (runOps hd l ops).account_balances x = 0
  | [], _, _, hb => hb
  | op :: rest, l, h, hb =>
    runOps_balance_zero hd x rest (applyOp hd l op).2
      (fun o ho => h o (List.mem_cons_of_mem _ ho))
      (applyOp_balance_zero hd l op x (h op (List.mem_cons_self _ _)) hb)

/-- C10: for every account id that is never the credited side of any
operation in the sequence, `get_account_balance` returns 0 — querying an
unknown account is total and yields the zero balance. -/
theorem unknown_account_balance_zero (hd : String → String) (ops : List LedgerOp)
    (x : String) (h : ∀ op ∈ ops, creditsAccount op x = false) :
    (runOps hd Ledger.new ops).get_account_balance x = 0 :=
  runOps_balance_zero hd x ops Ledger.new h rfl

/-- One issuance to `"A"`: it never credits `"B"`. -/
def opsCredit : List LedgerOp := [.issuance "e1" "t1" "x1" "root" "A" 1000]

/-- Witness for C10: account `"B"` is credited by no operation of
`opsCredit` and its balance after the run is 0. -/
theorem unknown_account_balance_zero_witness :
    (∀ op ∈ opsCredit, creditsAccount op "B" = false) ∧
    (runOps hashFn Ledger.new opsCredit).get_account_balance "B" = 0 :=
  ⟨by decide, unknown_account_balance_zero hashFn opsCredit "B" (by decide)⟩

/-! Consensus engine (`src/network/consensus.rs`). Transactions are an
arbitrary type parameter `Tx`: the engine stores and forwards them but
never inspects their fields (its digest uses only the batch length). -/

/-- `ConsensusState` from `src/network/consensus.rs`. -/
inductive ConsensusState where
  | Idle
  | PrePrepare
  | Prepare
  | Commit
  | ViewChange
  deriving Repr, DecidableEq

/-- `Signature` wrapper (`src/security.rs`); `Signature::new(vec![0; 64])`
is the placeholder the consensus code signs with. -/
structure Signature where
  bytes : List Nat
  deriving Repr, DecidableEq

/-- `ConsensusMessage` from `src/network/consensus.rs`. -/
inductive ConsensusMessage (Tx : Type) where
  | PrePrepare (view sequence : Nat) (digest : String)
      (transactions : List Tx) (signature : Signature)
  | Prepare (view sequence : Nat) (digest : String) (node_id : String)
      (signature : Signature)
  | Commit (view sequence : Nat) (digest : String) (node_id : String)
      (signature : Signature)
  | ViewChange (new_view : Nat) (node_id : String) (signature : Signature)
  deriving Repr, DecidableEq

/-- `Block` from `src/network/consensus.rs` (`validator_signatures` as an
association list). -/
structure Block (Tx : Type) where
  sequence : Nat
  view : Nat
  transactions : List Tx
  previous_hash : String
  merkle_root : String
  timestamp : Nat
  validator_signatures : List (String × Signature)
  deriving Repr, DecidableEq

/-- The mutable consensus-relevant state of `ConsensusEngine`:
`config.node_id` plus the fields threaded through the methods modelled
below. The `HashSet<String>` of validators is carried as its element
list. -/
structure ConsensusEngine (Tx : Type) where
  node_id : String
  state : ConsensusState
  current_view : Nat
  current_sequence : Nat
  is_primary : Bool
  validators : List String
  pending_transactions : List Tx
  committed_blocks : List (Block Tx)
  deriving Repr, DecidableEq

/-- `ConsensusEngine::calculate_digest`: the source computes
`format!("digest_\x7b\x7d", transactions.len())` — a function of the batch length
only. -/
def calculate_digest {Tx : Type} (transactions : List Tx) : String :=
  "digest_" ++ toString transactions.length

/-- `ConsensusEngine::sign_message`: the placeholder zero-filled
signature. -/
def sign_message {Tx : Type} (_e : ConsensusEngine Tx) (_message : String) : Signature :=
  ⟨List.replicate 64 0⟩

/-- `ConsensusEngine::update_primary_status`: sort the validator list,
pick index `current_view % len`, and mark the node primary exactly when
the picked id is its own. (On an empty list the source's `% 0` panics;
the model leaves the engine unchanged there, a case no claim touches —
the claims below assume at least one validator.) -/
def update_primary_status {Tx : Type} (e : ConsensusEngine Tx) : ConsensusEngine Tx :=
  let validator_list := e.validators.mergeSort (fun a b => a ≤ b)
  match validator_list.get? (e.current_view % validator_list.length) with
  | some primary => { e with is_primary := primary == e.node_id }
  | none => e

/-- `ConsensusEngine::initiate_consensus_round`: when primary with a
non-empty queue, drain all pending transactions and broadcast one
`PrePrepare` over them; returns the new engine state and the broadcast
messages. -/
def initiate_consensus_round {Tx : Type} (e : ConsensusEngine Tx) :
    ConsensusEngine Tx × List (ConsensusMessage Tx) :=
  if !e.is_primary then (e, [])
  else if e.pending_transactions.isEmpty then (e, [])
  else
    let transactions := e.pending_transactions
    let digest := calculate_digest transactions
    let pre_prepare : ConsensusMessage Tx :=
      .PrePrepare e.current_view e.current_sequence digest transactions
        (sign_message e "pre_prepare")
    ({ e with pending_transactions := [] }, [pre_prepare])

/-- `ConsensusEngine::add_transaction`: push the transaction, then
initiate a round if primary and the queue has reached 10 entries. (In the
source the pending queue sits behind one `RwLock` that is re-acquired
inside `initiate_consensus_round`; the lock discipline itself is outside
this sequential model.) -/
def add_transaction {Tx : Type} (e : ConsensusEngine Tx) (transaction : Tx) :
    ConsensusEngine Tx × List (ConsensusMessage Tx) :=
  let e1 := { e with pending_transactions := e.pending_transactions ++ [transaction] }
  if e1.is_primary && (e1.pending_transactions.length ≥ 10) then
    initiate_consensus_round e1
  else (e1, [])

/-- Follows the spec's words: `last_committed_sequence` is the sequence
number of the most recently committed block (0 when none exists). The
source tracks `committed_blocks` but keeps no such counter and never
increments `current_sequence`; this refinement-side definition is what
the spec's `PrePrepare` rule refers to. -/
def specLastCommittedSequence {Tx : Type} (e : ConsensusEngine Tx) : Nat :=
  match e.committed_blocks.getLast? with
  | some b => b.sequence
  | none => 0

/-- C5 (refuting evaluation): two singleton batches with different content
receive the same digest `"digest_1"` — `calculate_digest` depends only on
the batch length and cannot separate distinct batches of equal size. -/
theorem digest_length_only :
    (["a"] : List String) ≠ ["b"]
    ∧ calculate_digest (["a"] : List String) = "digest_1"
    ∧ calculate_digest (["b"] : List String) = "digest_1" :=
  ⟨by decide, rfl, rfl⟩

/-- C8: primary selection is the lexicographically sorted validator list
indexed at `view mod N`: there is a sorted permutation `l` of the
validator ids such that after `update_primary_status` the node is primary
exactly when `l[view % N]` is its own id. -/
theorem primary_selection {Tx : Type} (e : ConsensusEngine Tx)
    (h : 0 < e.validators.length) :
    ∃ (l : List String) (hl : 0 < l.length),
      l.Perm e.validators ∧ l.Sorted (· ≤ ·) ∧
      (update_primary_status e).is_primary =
        (l.get ⟨e.current_view % l.length, Nat.mod_lt _ hl⟩ == e.node_id) := by
  refine ⟨e.validators.mergeSort (fun a b => a ≤ b), ?_, ?_, ?_, ?_⟩
  · simpa [List.length_mergeSort] using h
  · exact List.mergeSort_perm _ _
  · exact List.sorted_mergeSort' _
  · unfold update_primary_status
    have hlt : e.current_view % (e.validators.mergeSort (fun a b => a ≤ b)).length <
        (e.validators.mergeSort (fun a b => a ≤ b)).length :=
      Nat.mod_lt _ (by simpa [List.length_mergeSort] using h)
    dsimp only
    rw [List.get?_eq_get hlt]

/-- A two-validator engine where view 1 selects the node's own id. -/
def engPrim : ConsensusEngine Nat :=
  { node_id := "b", state := .Idle, current_view := 1, current_sequence := 0,
    is_primary := false, validators := ["b", "a"],
    pending_transactions := [], committed_blocks := [] }

/-- Witness for C8: the selection theorem applied to the concrete
two-validator engine. -/
theorem primary_selection_witness :
    0 < engPrim.validators.length ∧
    ∃ (l : List String) (hl : 0 < l.length),
      l.Perm engPrim.validators ∧ l.Sorted (· ≤ ·) ∧
      (update_primary_status engPrim).is_primary =
        (l.get ⟨engPrim.current_view % l.length, Nat.mod_lt _ hl⟩ == engPrim.node_id) :=
  ⟨by decide, primary_selection engPrim (by decide)⟩

/-- A primary node with nine queued transactions and no committed block:
the next `add_transaction` reaches the batch threshold. -/
def engBatch : ConsensusEngine Nat :=
  { node_id := "n1", state := .Idle, current_view := 0, current_sequence := 0,
    is_primary := true, validators := ["n1"],
    pending_transactions := [1, 2, 3, 4, 5, 6, 7, 8, 9], committed_blocks := [] }

/-- C9 (refuting evaluation): on `engBatch`, the tenth `add_transaction`
does broadcast a `PrePrepare` over the drained batch, but its `sequence`
field is the engine's `current_sequence` (0), not
`last_committed_sequence + 1` (1). -/
theorem preprepare_sequence_counterexample :
    (add_transaction engBatch 10).2 =
      [.PrePrepare 0 0 "digest_10" [1, 2, 3, 4, 5, 6, 7, 8, 9, 10]
        ⟨List.replicate 64 0⟩]
    ∧ (0 : Nat) ≠ specLastCommittedSequence engBatch + 1 :=
  ⟨by decide, by decide⟩

/-- C9 (amended): when the node is primary and the push brings the pending
queue to the batch threshold of 10, `add_transaction` broadcasts exactly
one `PrePrepare` whose `sequence` is the engine's `current_sequence`
(initialized to 0 and never incremented by any code path), whose `view` is
`current_view`, and whose digest is `calculate_digest` of the drained
ordered batch; the queue is left empty. -/
theorem preprepare_broadcast (Tx : Type) (e : ConsensusEngine Tx) (t : Tx)
    (hp : e.is_primary = true) (hlen : 9 ≤ e.pending_transactions.length) :
    (add_transaction e t).2 =
      [.PrePrepare e.current_view e.current_sequence
        (calculate_digest (e.pending_transactions ++ [t]))
        (e.pending_transactions ++ [t]) ⟨List.replicate 64 0⟩]
    ∧ (add_transaction e t).1.pending_transactions = [] := by
  have hcond : ((e.pending_transactions ++ [t]).length ≥ 10) := by
    simp only [List.length_append, List.length_singleton]
    omega
  have hne : (e.pending_transactions ++ [t]).isEmpty = false := by
    cases e.pending_transactions <;> rfl
  constructor
  · simp [add_transaction, initiate_consensus_round, hp, hcond, hne, hlen, sign_message]
  · simp [add_transaction, initiate_consensus_round, hp, hcond, hne, hlen]

/-- Witness for C9's amended theorem: the broadcast on `engBatch`. -/
theorem preprepare_broadcast_witness :
    engBatch.is_primary = true ∧ 9 ≤ engBatch.pending_transactions.length ∧
    ((add_transaction engBatch 10).2 =
      [.PrePrepare engBatch.current_view engBatch.current_sequence
        (calculate_digest (engBatch.pending_transactions ++ [10]))
        (engBatch.pending_transactions ++ [10]) ⟨List.replicate 64 0⟩]
    ∧ (add_transaction engBatch 10).1.pending_transactions = []) :=
  ⟨rfl, by decide, preprepare_broadcast Nat engBatch 10 rfl (by decide)⟩

end Astor
